import Mathlib

/-!
Verification of the cache-consistency layer of the property-listing backend.

The development shallowly embeds the repository's cache layer
(`src/cache/cacheService.ts`, `src/cache/redisClient.ts`) and the domain
operations that call it (`src/controllers/favoriteController.ts`,
`src/controllers/propertyController.ts`).

Modelling conventions:
* Strings are `List Char`; numbers interpolated into keys use decimal printing.
* The serialization codec (`JSON.stringify` / `JSON.parse`) is embedded as an
  executable printer and parser over a JSON value type `Jval` (numbers are
  modelled as integers; string escaping covers the quote and backslash
  characters, other characters are stored verbatim).
* The Redis store is an association list of key/entry pairs; an entry records
  the serialized text and the TTL passed to `setex`.  The store handle is
  `Option Store`: `none` models `redisClient.getClient()` returning no
  connected client.  TTL expiry itself is not modelled (all claims are about
  states before expiry).
* `client.keys(pattern)` uses Redis glob matching; the matcher below supports
  the `*` and `?` metacharacters, which covers every pattern the repository
  constructs.
-/

/- JSON values, mutually with spine types for arrays and object field lists
(`JList`, `JFields`), so that all recursions are structural. -/
mutual
inductive Jval where
  | jnull
  | jbool (b : Bool)
  | jnum (n : Int)
  | jstr (s : List Char)
  | jarr (elems : JList)
  | jobj (fields : JFields)
inductive JList where
  | anil
  | acons (hd : Jval) (tl : JList)
inductive JFields where
  | fnil
  | fcons (name : List Char) (hd : Jval) (tl : JFields)
end

/-- A decimal digit character test (ASCII `0`–`9`). -/
def isDigitC (c : Char) : Bool := 48 ≤ c.toNat && c.toNat ≤ 57

/-- Numeric value of a decimal digit character. -/
def charVal (c : Char) : Nat := c.toNat - 48

/-- Decimal printing of a natural number (big-endian digit list), as produced
by JavaScript number-to-string conversion for non-negative integers.  The
first argument is fuel making the recursion structural; `digitsOfNat`
instantiates it sufficiently. -/
def digitsAux : Nat → Nat → List Char
  | 0, _ => []
  | fuel+1, n =>
    if n < 10 then [Nat.digitChar n]
    else digitsAux fuel (n / 10) ++ [Nat.digitChar (n % 10)]

def digitsOfNat (n : Nat) : List Char := digitsAux (n + 1) n

/-- JSON string escaping: `JSON.stringify` escapes the quote and backslash
characters; other characters of the modelled alphabet are emitted verbatim. -/
def escapeChar (c : Char) : List Char :=
  if c = '"' then ['\\', '"']
  else if c = '\\' then ['\\', '\\']
  else [c]

def escapeStr (s : List Char) : List Char := s.flatMap escapeChar

def encodeStr (s : List Char) : List Char := '"' :: (escapeStr s ++ ['"'])

/-- Decimal text of an integer, as JavaScript prints it. -/
def encodeInt (n : Int) : List Char :=
  if n < 0 then '-' :: digitsOfNat n.natAbs else digitsOfNat n.toNat

/- The serialization codec's encoder: `JSON.stringify`. -/
mutual
def encodeJ : Jval → List Char
  | .jnull => ['n','u','l','l']
  | .jbool true => ['t','r','u','e']
  | .jbool false => ['f','a','l','s','e']
  | .jnum n => encodeInt n
  | .jstr s => encodeStr s
  | .jarr es => '[' :: (encodeList es ++ [']'])
  | .jobj fs => '{' :: (encodeFields fs ++ ['}'])
def encodeList : JList → List Char
  | .anil => []
  | .acons h .anil => encodeJ h
  | .acons h (.acons h2 t) => encodeJ h ++ ',' :: encodeList (.acons h2 t)
def encodeFields : JFields → List Char
  | .fnil => []
  | .fcons k v .fnil => encodeStr k ++ ':' :: encodeJ v
  | .fcons k v (.fcons k2 v2 t) =>
    encodeStr k ++ ':' :: encodeJ v ++ ',' :: encodeFields (.fcons k2 v2 t)
end

/-- Body of a JSON string literal (after the opening quote): consume until the
closing quote, handling the two escapes the encoder produces. -/
def parseStrBody : List Char → Option (List Char × List Char)
  | [] => none
  | c :: rest =>
    if c = '"' then some ([], rest)
    else if c = '\\' then
      match rest with
      | [] => none
      | d :: rest2 =>
        if d = '"' || d = '\\' then
          (parseStrBody rest2).map (fun p => (d :: p.1, p.2))
        else none
    else (parseStrBody rest).map (fun p => (c :: p.1, p.2))

/-- A maximal run of decimal digits and its value. -/
def parseNatTok (cs : List Char) : Option (Nat × List Char) :=
  let ds := cs.takeWhile isDigitC
  if ds.isEmpty then none
  else some (ds.foldl (fun a c => 10 * a + charVal c) 0, cs.dropWhile isDigitC)

/- The serialization codec's decoder core: a fueled JSON parser
(`JSON.parse`).  Whitespace handling is not needed because the encoder never
emits it. -/
mutual
def parseVal : Nat → List Char → Option (Jval × List Char)
  | 0, _ => none
  | fuel+1, cs =>
    match cs with
    | [] => none
    | c :: cs1 =>
      if c = 'n' then
        if cs1.take 3 = ['u','l','l'] then some (.jnull, cs1.drop 3) else none
      else if c = 't' then
        if cs1.take 3 = ['r','u','e'] then some (.jbool true, cs1.drop 3) else none
      else if c = 'f' then
        if cs1.take 4 = ['a','l','s','e'] then some (.jbool false, cs1.drop 4) else none
      else if c = '"' then
        (parseStrBody cs1).map (fun p => (.jstr p.1, p.2))
      else if c = '[' then
        if cs1.head? = some ']' then some (.jarr .anil, cs1.tail)
        else (parseElems fuel cs1).map (fun p => (.jarr p.1, p.2))
      else if c = '{' then
        if cs1.head? = some '}' then some (.jobj .fnil, cs1.tail)
        else (parseFields fuel cs1).map (fun p => (.jobj p.1, p.2))
      else if c = '-' then
        (parseNatTok cs1).map (fun p => (.jnum (-(p.1 : Int)), p.2))
      else if isDigitC c then
        (parseNatTok (c :: cs1)).map (fun p => (.jnum (p.1 : Int), p.2))
      else none
def parseElems : Nat → List Char → Option (JList × List Char)
  | 0, _ => none
  | fuel+1, cs =>
    (parseVal fuel cs).bind (fun p =>
      match p.2 with
      | ',' :: r2 => (parseElems fuel r2).map (fun q => (.acons p.1 q.1, q.2))
      | ']' :: r2 => some (.acons p.1 .anil, r2)
      | _ => none)
def parseFields : Nat → List Char → Option (JFields × List Char)
  | 0, _ => none
  | fuel+1, cs =>
    match cs with
    | '"' :: cs1 =>
      (parseStrBody cs1).bind (fun k =>
        match k.2 with
        | ':' :: r2 =>
          (parseVal fuel r2).bind (fun v =>
            match v.2 with
            | ',' :: r4 => (parseFields fuel r4).map (fun q => (.fcons k.1 v.1 q.1, q.2))
            | '}' :: r4 => some (.fcons k.1 v.1 .fnil, r4)
            | _ => none)
        | _ => none)
    | _ => none
end

/-- The serialization codec's decoder: `JSON.parse` requires the whole input
to be consumed; on any malformed input it fails (`none`). -/
def decodeJ (cs : List Char) : Option Jval :=
  match parseVal (cs.length + 1) cs with
  | some (v, []) => some v
  | _ => none

/- Size measures bounding the fuel the parser needs. -/
mutual
def szv : Jval → Nat
  | .jnull => 1
  | .jbool _ => 1
  | .jnum _ => 1
  | .jstr _ => 1
  | .jarr es => szl es + 1
  | .jobj fs => szf fs + 1
def szl : JList → Nat
  | .anil => 0
  | .acons h t => szv h + szl t + 1
def szf : JFields → Nat
  | .fnil => 0
  | .fcons _ v t => szv v + szf t + 1
end

theorem digitsAux_congr : ∀ (n f1 f2 : Nat), n < f1 → n < f2 →
    digitsAux f1 n = digitsAux f2 n := by
  intro n
  induction n using Nat.strong_induction_on with
  | _ n ih =>
    intro f1 f2 h1 h2
    match f1, f2 with
    | a + 1, b + 1 =>
      simp only [digitsAux]
      by_cases hten : n < 10
      · simp [hten]
      · have hlt : n / 10 < n := Nat.div_lt_self (by omega) (by omega)
        simp only [hten, if_false]
        rw [ih (n / 10) hlt a b (by omega) (by omega)]

theorem digitsOfNat_eq (n : Nat) : digitsOfNat n =
    if n < 10 then [Nat.digitChar n]
    else digitsOfNat (n / 10) ++ [Nat.digitChar (n % 10)] := by
  by_cases hten : n < 10
  · rw [if_pos hten]
    show digitsAux (n + 1) n = _
    simp only [digitsAux, hten, if_true]
  · rw [if_neg hten]
    show digitsAux (n + 1) n = _
    simp only [digitsAux, hten, if_false]
    have hlt : n / 10 < n := Nat.div_lt_self (by omega) (by omega)
    rw [digitsAux_congr (n / 10) n (n / 10 + 1) (by omega) (by omega)]
    rfl

theorem digitChar_isDigit : ∀ d : Nat, d < 10 → isDigitC (Nat.digitChar d) = true := by decide

theorem charVal_digitChar : ∀ d : Nat, d < 10 → charVal (Nat.digitChar d) = d := by decide

theorem digitsOfNat_ne_nil (n : Nat) : digitsOfNat n ≠ [] := by
  rw [digitsOfNat_eq]
  by_cases hten : n < 10 <;> simp [hten]

theorem digitsOfNat_all_digit : ∀ (n : Nat), ∀ c ∈ digitsOfNat n, isDigitC c = true := by
  intro n
  induction n using Nat.strong_induction_on with
  | _ n ih =>
    intro c hc
    rw [digitsOfNat_eq] at hc
    by_cases hten : n < 10
    · simp [hten] at hc
      subst hc
      exact digitChar_isDigit n hten
    · have hlt : n / 10 < n := Nat.div_lt_self (by omega) (by omega)
      simp [hten] at hc
      rcases hc with hc | hc
      · exact ih (n / 10) hlt c hc
      · subst hc
        exact digitChar_isDigit (n % 10) (Nat.mod_lt n (by omega))

/-- Value of a big-endian digit-character list. -/
def valDigits (l : List Char) : Nat := l.foldl (fun a c => 10 * a + charVal c) 0

theorem valDigits_from (l : List Char) : ∀ a : Nat,
    l.foldl (fun a c => 10 * a + charVal c) a = a * 10 ^ l.length + valDigits l := by
  induction l with
  | nil => intro a; simp [valDigits]
  | cons c t ih =>
    intro a
    have h1 : (c :: t).foldl (fun a c => 10 * a + charVal c) a
        = t.foldl (fun a c => 10 * a + charVal c) (10 * a + charVal c) := rfl
    have h2 : valDigits (c :: t) = t.foldl (fun a c => 10 * a + charVal c) (10 * 0 + charVal c) := rfl
    rw [h1, h2, ih (10 * a + charVal c), ih (10 * 0 + charVal c)]
    simp only [List.length_cons]
    ring

theorem valDigits_append (l : List Char) (c : Char) :
    valDigits (l ++ [c]) = 10 * valDigits l + charVal c := by
  simp [valDigits, List.foldl_append]

theorem valDigits_digitsOfNat : ∀ n : Nat, valDigits (digitsOfNat n) = n := by
  intro n
  induction n using Nat.strong_induction_on with
  | _ n ih =>
    rw [digitsOfNat_eq]
    by_cases hten : n < 10
    · simp [hten, valDigits, charVal_digitChar n hten]
    · have hlt : n / 10 < n := Nat.div_lt_self (by omega) (by omega)
      simp only [hten, if_false]
      rw [valDigits_append, ih (n / 10) hlt, charVal_digitChar (n % 10) (Nat.mod_lt n (by omega))]
      omega

theorem takeWhile_append_stop (p : Char → Bool) (l rest : List Char)
    (h1 : ∀ c ∈ l, p c = true) (h2 : ∀ c, rest.head? = some c → p c = false) :
    (l ++ rest).takeWhile p = l ∧ (l ++ rest).dropWhile p = rest := by
  induction l with
  | nil =>
    cases rest with
    | nil => simp
    | cons c r =>
      have := h2 c rfl
      simp [List.takeWhile, List.dropWhile, this]
  | cons c t ih =>
    have hc : p c = true := h1 c (List.mem_cons_self c t)
    have ih2 := ih (fun d hd => h1 d (List.mem_cons_of_mem c hd))
    simp [List.takeWhile, List.dropWhile, hc, ih2.1, ih2.2]

theorem parseNatTok_digits (n : Nat) (rest : List Char)
    (h : ∀ c, rest.head? = some c → isDigitC c = false) :
    parseNatTok (digitsOfNat n ++ rest) = some (n, rest) := by
  have hall := digitsOfNat_all_digit n
  have htw := takeWhile_append_stop isDigitC (digitsOfNat n) rest hall h
  simp only [parseNatTok, htw.1, htw.2]
  have hne := digitsOfNat_ne_nil n
  have hv : valDigits (digitsOfNat n) = n := valDigits_digitsOfNat n
  simp only [valDigits] at hv
  simp [List.isEmpty_iff, hne, hv]

theorem parseStrBody_escape : ∀ (s rest : List Char),
    parseStrBody (escapeStr s ++ ('"' :: rest)) = some (s, rest) := by
  intro s
  induction s with
  | nil =>
    intro rest
    have h0 : escapeStr [] ++ ('"' :: rest) = '"' :: rest := by simp [escapeStr]
    rw [h0, parseStrBody.eq_def]
    simp
  | cons c t ih =>
    intro rest
    have hesc : escapeStr (c :: t) ++ ('"' :: rest)
        = escapeChar c ++ (escapeStr t ++ ('"' :: rest)) := by
      simp [escapeStr]
    rw [hesc]
    by_cases hq : c = '"'
    · subst hq
      have h0 : escapeChar '"' ++ (escapeStr t ++ ('"' :: rest))
          = '\\' :: '"' :: (escapeStr t ++ ('"' :: rest)) := by simp [escapeChar]
      rw [h0, parseStrBody.eq_def]
      simp [ih rest]
    · by_cases hb : c = '\\'
      · subst hb
        have h0 : escapeChar '\\' ++ (escapeStr t ++ ('"' :: rest))
            = '\\' :: '\\' :: (escapeStr t ++ ('"' :: rest)) := by simp [escapeChar]
        rw [h0, parseStrBody.eq_def]
        simp [ih rest]
      · have h0 : escapeChar c ++ (escapeStr t ++ ('"' :: rest))
            = c :: (escapeStr t ++ ('"' :: rest)) := by simp [escapeChar, hq, hb]
        rw [h0, parseStrBody.eq_def]
        simp [hq, hb, ih rest]

theorem encodeInt_ne_nil (n : Int) : encodeInt n ≠ [] := by
  unfold encodeInt
  split
  · simp
  · exact digitsOfNat_ne_nil _

theorem encodeJ_ne_nil : ∀ v : Jval, encodeJ v ≠ [] := by
  intro v
  cases v with
  | jnull => simp [encodeJ]
  | jbool b => cases b <;> simp [encodeJ]
  | jnum n => exact encodeInt_ne_nil n
  | jstr s => simp [encodeJ, encodeStr]
  | jarr es => simp [encodeJ]
  | jobj fs => simp [encodeJ]

theorem isDigitC_not_delim (c : Char) (h : isDigitC c = true) :
    c ≠ ']' ∧ c ≠ '}' ∧ c ≠ ',' := by
  refine ⟨?_, ?_, ?_⟩ <;> rintro rfl <;> exact absurd h (by decide)

theorem encodeJ_head_ok : ∀ (v : Jval) (c : Char), (encodeJ v).head? = some c →
    c ≠ ']' ∧ c ≠ '}' ∧ c ≠ ',' := by
  intro v c h
  cases v with
  | jnull => simp [encodeJ] at h; subst h; refine ⟨by decide, by decide, by decide⟩
  | jbool b => cases b <;> simp [encodeJ] at h <;> subst h <;>
      exact ⟨by decide, by decide, by decide⟩
  | jnum n =>
    have h2 : (encodeInt n).head? = some c := h
    rw [encodeInt] at h2
    by_cases hneg : n < 0
    · rw [if_pos hneg] at h2
      simp at h2
      subst h2
      exact ⟨by decide, by decide, by decide⟩
    · rw [if_neg hneg] at h2
      obtain ⟨c0, l0, hd⟩ := List.exists_cons_of_ne_nil (digitsOfNat_ne_nil n.toNat)
      rw [hd] at h2
      simp at h2
      have hcm : c ∈ digitsOfNat n.toNat := by
        rw [hd]
        simp [h2]
      exact isDigitC_not_delim c (digitsOfNat_all_digit n.toNat c hcm)
  | jstr s => simp [encodeJ, encodeStr] at h; subst h; exact ⟨by decide, by decide, by decide⟩
  | jarr es => simp [encodeJ] at h; subst h; exact ⟨by decide, by decide, by decide⟩
  | jobj fs => simp [encodeJ] at h; subst h; exact ⟨by decide, by decide, by decide⟩

/-- No pending decimal digit at the head of the remaining input (so a number
token printed just before it is parsed maximally). -/
def stopsNum (rest : List Char) : Prop :=
  ∀ c, rest.head? = some c → isDigitC c = false

theorem stopsNum_nil : stopsNum [] := by intro c hc; cases hc

theorem parseVal_digitHead (fuel : Nat) (c : Char) (cs1 : List Char) (h : isDigitC c = true) :
    parseVal (fuel + 1) (c :: cs1)
      = (parseNatTok (c :: cs1)).map (fun p => (Jval.jnum (p.1 : Int), p.2)) := by
  have h1 : c ≠ 'n' := by rintro rfl; exact absurd h (by decide)
  have h2 : c ≠ 't' := by rintro rfl; exact absurd h (by decide)
  have h3 : c ≠ 'f' := by rintro rfl; exact absurd h (by decide)
  have h4 : c ≠ '"' := by rintro rfl; exact absurd h (by decide)
  have h5 : c ≠ '[' := by rintro rfl; exact absurd h (by decide)
  have h6 : c ≠ '{' := by rintro rfl; exact absurd h (by decide)
  have h7 : c ≠ '-' := by rintro rfl; exact absurd h (by decide)
  simp only [parseVal, h1, h2, h3, h4, h5, h6, h7, if_false, h, if_true]

theorem parseVal_quote (fuel : Nat) (cs1 : List Char) :
    parseVal (fuel + 1) ('"' :: cs1)
      = (parseStrBody cs1).map (fun p => (Jval.jstr p.1, p.2)) := rfl

theorem parseVal_dash (fuel : Nat) (cs1 : List Char) :
    parseVal (fuel + 1) ('-' :: cs1)
      = (parseNatTok cs1).map (fun p => (Jval.jnum (-(p.1 : Int)), p.2)) := rfl

theorem parseVal_lbrack (fuel : Nat) (cs1 : List Char) :
    parseVal (fuel + 1) ('[' :: cs1)
      = if cs1.head? = some ']' then some (Jval.jarr .anil, cs1.tail)
        else (parseElems fuel cs1).map (fun p => (Jval.jarr p.1, p.2)) := rfl

theorem parseVal_lbrace (fuel : Nat) (cs1 : List Char) :
    parseVal (fuel + 1) ('{' :: cs1)
      = if cs1.head? = some '}' then some (Jval.jobj .fnil, cs1.tail)
        else (parseFields fuel cs1).map (fun p => (Jval.jobj p.1, p.2)) := rfl

theorem parseElems_succ (fuel : Nat) (cs : List Char) :
    parseElems (fuel + 1) cs = (parseVal fuel cs).bind (fun p =>
      match p.2 with
      | ',' :: r2 => (parseElems fuel r2).map (fun q => (JList.acons p.1 q.1, q.2))
      | ']' :: r2 => some (JList.acons p.1 .anil, r2)
      | _ => none) := rfl

theorem parseFields_quote (fuel : Nat) (cs1 : List Char) :
    parseFields (fuel + 1) ('"' :: cs1) = (parseStrBody cs1).bind (fun k =>
      match k.2 with
      | ':' :: r2 =>
        (parseVal fuel r2).bind (fun v =>
          match v.2 with
          | ',' :: r4 => (parseFields fuel r4).map (fun q => (JFields.fcons k.1 v.1 q.1, q.2))
          | '}' :: r4 => some (JFields.fcons k.1 v.1 .fnil, r4)
          | _ => none)
      | _ => none) := rfl

theorem stopsNum_comma (rest : List Char) : stopsNum (',' :: rest) := by
  intro c hc
  simp at hc
  rw [← hc]
  decide

theorem stopsNum_rbrack (rest : List Char) : stopsNum (']' :: rest) := by
  intro c hc
  simp at hc
  rw [← hc]
  decide

theorem stopsNum_rbrace (rest : List Char) : stopsNum ('}' :: rest) := by
  intro c hc
  simp at hc
  rw [← hc]
  decide

mutual
theorem rtV : ∀ (v : Jval) (fuel : Nat) (rest : List Char), szv v < fuel → stopsNum rest →
    parseVal fuel (encodeJ v ++ rest) = some (v, rest)
  | .jnull, fuel, rest, hf, _ => by
    have hs : szv .jnull = 1 := rfl
    obtain ⟨f, rfl⟩ : ∃ f, fuel = f + 1 := ⟨fuel - 1, by omega⟩
    rfl
  | .jbool true, fuel, rest, hf, _ => by
    have hs : szv (.jbool true) = 1 := rfl
    obtain ⟨f, rfl⟩ : ∃ f, fuel = f + 1 := ⟨fuel - 1, by omega⟩
    rfl
  | .jbool false, fuel, rest, hf, _ => by
    have hs : szv (.jbool false) = 1 := rfl
    obtain ⟨f, rfl⟩ : ∃ f, fuel = f + 1 := ⟨fuel - 1, by omega⟩
    rfl
  | .jnum n, fuel, rest, hf, hr => by
    have hs : szv (.jnum n) = 1 := rfl
    obtain ⟨f, rfl⟩ : ∃ f, fuel = f + 1 := ⟨fuel - 1, by omega⟩
    by_cases hneg : n < 0
    · have h1 : encodeJ (.jnum n) ++ rest = '-' :: (digitsOfNat n.natAbs ++ rest) := by
        show encodeInt n ++ rest = _
        rw [encodeInt, if_pos hneg]
        rfl
      rw [h1, parseVal_dash, parseNatTok_digits _ _ hr]
      have hval : -((n.natAbs : Nat) : Int) = n := by omega
      show some (Jval.jnum (-((n.natAbs : Nat) : Int)), rest) = some (Jval.jnum n, rest)
      rw [hval]
    · have hge : 0 ≤ n := by omega
      obtain ⟨c0, l0, hd⟩ := List.exists_cons_of_ne_nil (digitsOfNat_ne_nil n.toNat)
      have hdig : isDigitC c0 = true := digitsOfNat_all_digit n.toNat c0 (by
        rw [hd]; exact List.mem_cons_self _ _)
      have h1 : encodeJ (.jnum n) ++ rest = c0 :: (l0 ++ rest) := by
        show encodeInt n ++ rest = _
        rw [encodeInt, if_neg hneg, hd]
        rfl
      rw [h1, parseVal_digitHead f c0 (l0 ++ rest) hdig]
      have h2 : c0 :: (l0 ++ rest) = digitsOfNat n.toNat ++ rest := by rw [hd]; rfl
      rw [h2, parseNatTok_digits _ _ hr]
      simp [Int.toNat_of_nonneg hge]
  | .jstr s, fuel, rest, hf, _ => by
    have hs : szv (.jstr s) = 1 := rfl
    obtain ⟨f, rfl⟩ : ∃ f, fuel = f + 1 := ⟨fuel - 1, by omega⟩
    have h1 : encodeJ (.jstr s) ++ rest = '"' :: (escapeStr s ++ ('"' :: rest)) := by
      show ('"' :: (escapeStr s ++ ['"'])) ++ rest = _
      simp
    rw [h1, parseVal_quote, parseStrBody_escape]
    rfl
  | .jarr .anil, fuel, rest, hf, _ => by
    have hs : szv (Jval.jarr .anil) = 1 := rfl
    obtain ⟨f, rfl⟩ : ∃ f, fuel = f + 1 := ⟨fuel - 1, by omega⟩
    rfl
  | .jarr (.acons h t), fuel, rest, hf, _ => by
    have hs : szv (Jval.jarr (JList.acons h t)) = szl (JList.acons h t) + 1 := by simp [szv]
    obtain ⟨f, rfl⟩ : ∃ f, fuel = f + 1 := ⟨fuel - 1, by omega⟩
    have hfl : szl (JList.acons h t) < f := by omega
    obtain ⟨c0, l0, hd⟩ := List.exists_cons_of_ne_nil (encodeJ_ne_nil h)
    obtain ⟨X, hX⟩ : ∃ X, encodeList (JList.acons h t) = encodeJ h ++ X := by
      cases t with
      | anil => exact ⟨[], by simp [encodeList]⟩
      | acons h2 t2 => exact ⟨',' :: encodeList (JList.acons h2 t2), by simp [encodeList]⟩
    have h1 : encodeJ (.jarr (.acons h t)) ++ rest
        = '[' :: (encodeList (JList.acons h t) ++ (']' :: rest)) := by
      rw [show encodeJ (Jval.jarr (JList.acons h t))
          = '[' :: (encodeList (JList.acons h t) ++ [']']) from by simp [encodeJ]]
      simp
    rw [h1, parseVal_lbrack]
    have hne := (encodeJ_head_ok h c0 (by rw [hd]; rfl)).1
    have hcond : ¬ ((encodeList (JList.acons h t) ++ (']' :: rest)).head? = some ']') := by
      rw [hX, hd]
      simp [hne]
    rw [if_neg hcond, rtE (.acons h t) f rest (fun hx => JList.noConfusion hx) hfl]
    rfl
  | .jobj .fnil, fuel, rest, hf, _ => by
    have hs : szv (Jval.jobj .fnil) = 1 := rfl
    obtain ⟨f, rfl⟩ : ∃ f, fuel = f + 1 := ⟨fuel - 1, by omega⟩
    rfl
  | .jobj (.fcons k v t), fuel, rest, hf, _ => by
    have hs : szv (Jval.jobj (JFields.fcons k v t)) = szf (JFields.fcons k v t) + 1 := by
      simp [szv]
    obtain ⟨f, rfl⟩ : ∃ f, fuel = f + 1 := ⟨fuel - 1, by omega⟩
    have hfl : szf (JFields.fcons k v t) < f := by omega
    obtain ⟨X, hX⟩ : ∃ X, encodeFields (JFields.fcons k v t) = '"' :: X := by
      cases t with
      | fnil =>
        refine ⟨(escapeStr k ++ ['"']) ++ ':' :: encodeJ v, ?_⟩
        rw [show encodeFields (JFields.fcons k v JFields.fnil)
            = encodeStr k ++ ':' :: encodeJ v from by simp [encodeFields]]
        simp [encodeStr]
      | fcons k2 v2 t2 =>
        refine ⟨(escapeStr k ++ ['"']) ++ ':' :: encodeJ v
            ++ ',' :: encodeFields (JFields.fcons k2 v2 t2), ?_⟩
        rw [show encodeFields (JFields.fcons k v (JFields.fcons k2 v2 t2))
            = encodeStr k ++ ':' :: encodeJ v ++ ',' :: encodeFields (JFields.fcons k2 v2 t2)
            from by simp [encodeFields]]
        simp [encodeStr]
    have h1 : encodeJ (.jobj (.fcons k v t)) ++ rest
        = '{' :: (encodeFields (JFields.fcons k v t) ++ ('}' :: rest)) := by
      rw [show encodeJ (Jval.jobj (JFields.fcons k v t))
          = '{' :: (encodeFields (JFields.fcons k v t) ++ ['}']) from by simp [encodeJ]]
      simp
    rw [h1, parseVal_lbrace]
    have hcond : ¬ ((encodeFields (JFields.fcons k v t) ++ ('}' :: rest)).head? = some '}') := by
      rw [hX]
      simp
    rw [if_neg hcond, rtF (.fcons k v t) f rest (fun hx => JFields.noConfusion hx) hfl]
    rfl
termination_by v => szv v
decreasing_by
  all_goals simp [szv, szl, szf]

theorem rtE : ∀ (es : JList) (fuel : Nat) (rest : List Char), es ≠ .anil → szl es < fuel →
    parseElems fuel (encodeList es ++ (']' :: rest)) = some (es, rest)
  | .anil, _, _, hne, _ => absurd rfl hne
  | .acons h .anil, fuel, rest, _, hfl => by
    have hs : szl (JList.acons h JList.anil) = szv h + 1 := by simp [szl]
    obtain ⟨f, rfl⟩ : ∃ f, fuel = f + 1 := ⟨fuel - 1, by omega⟩
    have hv : szv h < f := by omega
    rw [show encodeList (JList.acons h JList.anil) = encodeJ h from by simp [encodeList]]
    rw [parseElems_succ, rtV h f (']' :: rest) hv (stopsNum_rbrack rest)]
    rfl
  | .acons h (.acons h2 t2), fuel, rest, _, hfl => by
    have hs : szl (JList.acons h (JList.acons h2 t2))
        = szv h + szl (JList.acons h2 t2) + 1 := by simp [szl]
    obtain ⟨f, rfl⟩ : ∃ f, fuel = f + 1 := ⟨fuel - 1, by omega⟩
    have hv : szv h < f := by omega
    have ht : szl (JList.acons h2 t2) < f := by omega
    have h1 : encodeList (JList.acons h (JList.acons h2 t2)) ++ (']' :: rest)
        = encodeJ h ++ (',' :: (encodeList (JList.acons h2 t2) ++ (']' :: rest))) := by
      rw [show encodeList (JList.acons h (JList.acons h2 t2))
          = encodeJ h ++ ',' :: encodeList (JList.acons h2 t2) from by simp [encodeList]]
      simp
    rw [h1, parseElems_succ, rtV h f _ hv (stopsNum_comma _)]
    show (parseElems f (encodeList (JList.acons h2 t2) ++ (']' :: rest))).map
        (fun q => (JList.acons h q.1, q.2)) = _
    rw [rtE (.acons h2 t2) f rest (fun hx => JList.noConfusion hx) ht]
    rfl
termination_by es => szl es
decreasing_by
  all_goals (simp [szv, szl, szf] <;> omega)

theorem rtF : ∀ (fs : JFields) (fuel : Nat) (rest : List Char), fs ≠ .fnil → szf fs < fuel →
    parseFields fuel (encodeFields fs ++ ('}' :: rest)) = some (fs, rest)
  | .fnil, _, _, hne, _ => absurd rfl hne
  | .fcons k v .fnil, fuel, rest, _, hfl => by
    have hs : szf (JFields.fcons k v JFields.fnil) = szv v + 1 := by simp [szf]
    obtain ⟨f, rfl⟩ : ∃ f, fuel = f + 1 := ⟨fuel - 1, by omega⟩
    have hv : szv v < f := by omega
    have h1 : encodeFields (JFields.fcons k v JFields.fnil) ++ ('}' :: rest)
        = '"' :: (escapeStr k ++ ('"' :: (':' :: (encodeJ v ++ ('}' :: rest))))) := by
      rw [show encodeFields (JFields.fcons k v JFields.fnil)
          = encodeStr k ++ ':' :: encodeJ v from by simp [encodeFields]]
      show (('"' :: (escapeStr k ++ ['"'])) ++ ':' :: encodeJ v) ++ ('}' :: rest) = _
      simp
    rw [h1, parseFields_quote, parseStrBody_escape]
    show (parseVal f (encodeJ v ++ ('}' :: rest))).bind (fun vp =>
      match vp.2 with
      | ',' :: r4 => (parseFields f r4).map (fun q => (JFields.fcons k vp.1 q.1, q.2))
      | '}' :: r4 => some (JFields.fcons k vp.1 .fnil, r4)
      | _ => none) = _
    rw [rtV v f _ hv (stopsNum_rbrace _)]
    rfl
  | .fcons k v (.fcons k2 v2 t2), fuel, rest, _, hfl => by
    have hs : szf (JFields.fcons k v (JFields.fcons k2 v2 t2))
        = szv v + szf (JFields.fcons k2 v2 t2) + 1 := by simp [szf]
    obtain ⟨f, rfl⟩ : ∃ f, fuel = f + 1 := ⟨fuel - 1, by omega⟩
    have hv : szv v < f := by omega
    have ht : szf (JFields.fcons k2 v2 t2) < f := by omega
    have h1 : encodeFields (JFields.fcons k v (JFields.fcons k2 v2 t2)) ++ ('}' :: rest)
        = '"' :: (escapeStr k ++ ('"' :: (':' :: (encodeJ v
            ++ (',' :: (encodeFields (JFields.fcons k2 v2 t2) ++ ('}' :: rest))))))) := by
      rw [show encodeFields (JFields.fcons k v (JFields.fcons k2 v2 t2))
          = encodeStr k ++ ':' :: encodeJ v ++ ',' :: encodeFields (JFields.fcons k2 v2 t2)
          from by simp [encodeFields]]
      show (('"' :: (escapeStr k ++ ['"'])) ++ ':' :: encodeJ v
          ++ ',' :: encodeFields (JFields.fcons k2 v2 t2)) ++ ('}' :: rest) = _
      simp
    rw [h1, parseFields_quote, parseStrBody_escape]
    show (parseVal f (encodeJ v ++ (',' :: (encodeFields (JFields.fcons k2 v2 t2)
        ++ ('}' :: rest))))).bind (fun vp =>
      match vp.2 with
      | ',' :: r4 => (parseFields f r4).map (fun q => (JFields.fcons k vp.1 q.1, q.2))
      | '}' :: r4 => some (JFields.fcons k vp.1 .fnil, r4)
      | _ => none) = _
    rw [rtV v f _ hv (stopsNum_comma _)]
    show (parseFields f (encodeFields (JFields.fcons k2 v2 t2) ++ ('}' :: rest))).map
        (fun q => (JFields.fcons k v q.1, q.2)) = _
    rw [rtF (.fcons k2 v2 t2) f rest (fun hx => JFields.noConfusion hx) ht]
    rfl
termination_by fs => szf fs
decreasing_by
  all_goals (simp [szv, szl, szf] <;> omega)
end

mutual
theorem szv_le_len : ∀ v : Jval, szv v ≤ (encodeJ v).length
  | .jnull => by simp [szv, encodeJ]
  | .jbool true => by simp [szv, encodeJ]
  | .jbool false => by simp [szv, encodeJ]
  | .jnum n => by
    have h2 : encodeJ (Jval.jnum n) = encodeInt n := by simp [encodeJ]
    rw [show szv (Jval.jnum n) = 1 from rfl, h2]
    have hne := encodeInt_ne_nil n
    cases henc : encodeInt n with
    | nil => exact absurd henc hne
    | cons a l => simp
  | .jstr s => by
    have h2 : encodeJ (Jval.jstr s) = '"' :: (escapeStr s ++ ['"']) := by
      simp [encodeJ, encodeStr]
    rw [show szv (Jval.jstr s) = 1 from rfl, h2]
    simp
  | .jarr es => by
    have h2 : encodeJ (Jval.jarr es) = '[' :: (encodeList es ++ [']']) := by simp [encodeJ]
    have hs : szv (Jval.jarr es) = szl es + 1 := by simp [szv]
    have hl := szl_le_len es
    rw [h2, hs]
    simp only [List.length_cons, List.length_append, List.length_singleton]
    omega
  | .jobj fs => by
    have h2 : encodeJ (Jval.jobj fs) = '{' :: (encodeFields fs ++ ['}']) := by simp [encodeJ]
    have hs : szv (Jval.jobj fs) = szf fs + 1 := by simp [szv]
    have hl := szf_le_len fs
    rw [h2, hs]
    simp only [List.length_cons, List.length_append, List.length_singleton]
    omega
termination_by v => szv v
decreasing_by
  all_goals simp [szv, szl, szf]

theorem szl_le_len : ∀ es : JList, szl es ≤ (encodeList es).length + 1
  | .anil => by simp [szl]
  | .acons h .anil => by
    have ha := szv_le_len h
    have h2 : encodeList (JList.acons h JList.anil) = encodeJ h := by simp [encodeList]
    have hs : szl (JList.acons h JList.anil) = szv h + 1 := by simp [szl]
    rw [h2, hs]
    omega
  | .acons h (.acons h2 t2) => by
    have ha := szv_le_len h
    have hb := szl_le_len (.acons h2 t2)
    have he : encodeList (JList.acons h (JList.acons h2 t2))
        = encodeJ h ++ ',' :: encodeList (JList.acons h2 t2) := by simp [encodeList]
    have hs : szl (JList.acons h (JList.acons h2 t2))
        = szv h + szl (JList.acons h2 t2) + 1 := by simp [szl]
    rw [hs, he]
    simp only [List.length_append, List.length_cons]
    omega
termination_by es => szl es
decreasing_by
  all_goals (simp [szv, szl, szf] <;> omega)

theorem szf_le_len : ∀ fs : JFields, szf fs ≤ (encodeFields fs).length + 1
  | .fnil => by simp [szf]
  | .fcons k v .fnil => by
    have ha := szv_le_len v
    have h2 : encodeFields (JFields.fcons k v JFields.fnil)
        = encodeStr k ++ ':' :: encodeJ v := by simp [encodeFields]
    have hs : szf (JFields.fcons k v JFields.fnil) = szv v + 1 := by simp [szf]
    rw [h2, hs]
    simp only [List.length_append, List.length_cons]
    omega
  | .fcons k v (.fcons k2 v2 t2) => by
    have ha := szv_le_len v
    have hb := szf_le_len (.fcons k2 v2 t2)
    have he : encodeFields (JFields.fcons k v (JFields.fcons k2 v2 t2))
        = encodeStr k ++ ':' :: encodeJ v ++ ',' :: encodeFields (JFields.fcons k2 v2 t2) := by
      simp [encodeFields]
    have hs : szf (JFields.fcons k v (JFields.fcons k2 v2 t2))
        = szv v + szf (JFields.fcons k2 v2 t2) + 1 := by simp [szf]
    rw [hs, he]
    simp only [List.length_append, List.length_cons]
    omega
termination_by fs => szf fs
decreasing_by
  all_goals (simp [szv, szl, szf] <;> omega)
end

/-- Round-trip law of the serialization codec: decoding the encoding of any
encodable value yields the value back. -/
theorem decodeJ_encodeJ (v : Jval) : decodeJ (encodeJ v) = some v := by
  have h1 : szv v < (encodeJ v).length + 1 := by
    have := szv_le_len v
    omega
  have h2 := rtV v ((encodeJ v).length + 1) [] h1 stopsNum_nil
  rw [List.append_nil] at h2
  unfold decodeJ
  rw [h2]

/-- A stored cache entry: the serialized text passed to `setex` and its TTL
in seconds. -/
structure Entry where
  data : List Char
  ttl : Nat

/-- The Redis keyspace: an association list from keys to entries (most recent
write first). -/
def Store := List (List Char × Entry)

/-- `client.get(key)`. -/
def storeGet : Store → List Char → Option Entry
  | [], _ => none
  | (k1, e) :: t, k => if k1 = k then some e else storeGet t k

/-- `client.setex(key, ttl, text)`: full overwrite of the key. -/
def storeSet (s : Store) (k : List Char) (e : Entry) : Store :=
  (k, e) :: s.filter (fun kv => !(kv.1 = k : Bool))

/-- `client.del(key)`. -/
def storeDelKey (s : Store) (k : List Char) : Store :=
  s.filter (fun kv => !(kv.1 = k : Bool))

/-- Redis glob matching (fueled to keep the recursion structural; `globMatch`
supplies sufficient fuel).  The repository only builds patterns from literal
characters and a trailing `*`. -/
def globAux : Nat → List Char → List Char → Bool
  | 0, _, _ => false
  | fuel+1, p, s =>
    match p with
    | [] => s.isEmpty
    | c :: ps =>
      if c = '*' then
        globAux fuel ps s ||
          (match s with
           | [] => false
           | _ :: s2 => globAux fuel (c :: ps) s2)
      else
        match s with
        | [] => false
        | d :: s2 =>
          if c = '?' then globAux fuel ps s2
          else (c = d : Bool) && globAux fuel ps s2

def globMatch (p s : List Char) : Bool := globAux (p.length + s.length + 1) p s

/-- `client.keys(pattern)` then `client.del(...keys)`: drop every entry whose
key matches the glob pattern. -/
def storeDelPattern (s : Store) (pat : List Char) : Store :=
  s.filter (fun kv => !(globMatch pat kv.1))

/-- The base64 alphabet (`Buffer.toString('base64')`). -/
def b64Char (n : Nat) : Char :=
  if n < 26 then Char.ofNat (65 + n)
  else if n < 52 then Char.ofNat (97 + (n - 26))
  else if n < 62 then Char.ofNat (48 + (n - 52))
  else if n = 62 then '+'
  else '/'

/-- Standard base64 of a byte sequence, with `=` padding
(`Buffer.from(text).toString('base64')`; the modelled text alphabet is
single-byte). -/
def base64 : List Nat → List Char
  | [] => []
  | [b1] => [b64Char (b1 / 4), b64Char (b1 % 4 * 16), '=', '=']
  | [b1, b2] => [b64Char (b1 / 4), b64Char (b1 % 4 * 16 + b2 / 16), b64Char (b2 % 16 * 4), '=']
  | b1 :: b2 :: b3 :: rest =>
    b64Char (b1 / 4) :: b64Char (b1 % 4 * 16 + b2 / 16)
      :: b64Char (b2 % 16 * 4 + b3 / 64) :: b64Char (b3 % 64) :: base64 rest

/-- A query object: an association list of parameter names to (string)
values, in enumeration order, with distinct names (JavaScript objects cannot
repeat a key). -/
def Query := List (List Char × List Char)

/-- JavaScript string comparison (`Array.prototype.sort` default comparator):
lexicographic on character codes. -/
def nameLe : List Char → List Char → Bool
  | [], _ => true
  | _ :: _, [] => false
  | a :: as, b :: bs =>
    if a.toNat < b.toNat then true
    else if b.toNat < a.toNat then false
    else nameLe as bs

/-- The sort order on query pairs: by parameter name. -/
def nameLeP (x y : List Char × List Char) : Prop := nameLe x.1 y.1 = true

instance : DecidableRel nameLeP := fun x y =>
  inferInstanceAs (Decidable (nameLe x.1 y.1 = true))

/-- `Object.keys(query).sort()` followed by rebuilding the object in sorted
key order (`generateSearchKey`'s reduce): sorting the pairs by name. -/
def sortQuery (q : Query) : Query := List.insertionSort nameLeP q

def fieldsOfPairs : Query → JFields
  | [] => .fnil
  | (k, v) :: rest => .fcons k (.jstr v) (fieldsOfPairs rest)

/-- `CacheService.generateSearchKey`: sort the parameter names, serialize the
sorted object to JSON, base64-encode the result. -/
def generateSearchKey (q : Query) : List Char :=
  base64 ((encodeJ (.jobj (fieldsOfPairs (sortQuery q)))).map Char.toNat)

/- `CacheService.TTL` (seconds). -/
def ttlPROPERTY : Nat := 60 * 15
def ttlUSER : Nat := 60 * 30
def ttlSEARCH : Nat := 60 * 5
def ttlFAVORITES : Nat := 60 * 10
def ttlPROPERTY_LIST : Nat := 60 * 10

/- `CacheService.KEYS`: the key-space design. -/
def kProperty (id : List Char) : List Char := "property:".data ++ id
def kUserProfile (id : List Char) : List Char := "user:profile:".data ++ id
def kUserProperties (userId : List Char) (page limit : Nat) : List Char :=
  "user:properties:".data ++ userId ++ ':' :: digitsOfNat page ++ ':' :: digitsOfNat limit
def kPropertySearch (queryKey : List Char) : List Char := "search:properties:".data ++ queryKey
def kUserFavorites (userId : List Char) (page limit : Nat) : List Char :=
  "user:favorites:".data ++ userId ++ ':' :: digitsOfNat page ++ ':' :: digitsOfNat limit
def kFavStatus (userId propertyId : List Char) : List Char :=
  "favorite:status:".data ++ userId ++ ':' :: propertyId

/- Invalidation patterns the repository constructs. -/
def patSearch : List Char := "search:properties:*".data
def patUserPropertiesAll : List Char := "user:properties:*".data
def patUserProperties (userId : List Char) : List Char :=
  "user:properties:".data ++ userId ++ ":*".data
def patUserFavorites (userId : List Char) : List Char :=
  "user:favorites:".data ++ userId ++ ":*".data
def patFavStatus (userId : List Char) : List Char :=
  "favorite:status:".data ++ userId ++ ":*".data

/-- The cache-store handle as the service sees it: `none` models
`redisClient.getClient()` returning no client (store unavailable). -/
def CState := Option Store

/-- `CacheService.setCache`: no-op when the client is unavailable, otherwise
`setex` of the JSON-serialized data. -/
def setCache (st : CState) (key : List Char) (data : Jval) (ttl : Nat) : CState :=
  match st with
  | none => none
  | some s => some (storeSet s key ⟨encodeJ data, ttl⟩)

/-- `CacheService.getCache`: `null` on unavailable client or missing key;
`JSON.parse` of the stored text otherwise, with a parse error caught and
turned into `null` (and falsy stored text short-circuits to `null`). -/
def getCache (st : CState) (key : List Char) : Option Jval :=
  match st with
  | none => none
  | some s =>
    match storeGet s key with
    | none => none
    | some e => if e.data.isEmpty then none else decodeJ e.data

/-- `CacheService.deleteCache`. -/
def deleteCache (st : CState) (key : List Char) : CState :=
  match st with
  | none => none
  | some s => some (storeDelKey s key)

/-- `CacheService.deleteCachePattern`. -/
def deleteCachePattern (st : CState) (pat : List Char) : CState :=
  match st with
  | none => none
  | some s => some (storeDelPattern s pat)

/-- A property value as the controllers pass it to the cache: an optional
`_id` (TypeScript `_id?: string`) plus its remaining JSON fields. -/
structure IProperty where
  _id : Option (List Char)
  fields : JFields

def propToJ (p : IProperty) : Jval :=
  .jobj (match p._id with
    | none => p.fields
    | some i => .fcons "_id".data (.jstr i) p.fields)

/-- A user profile (`Omit<IUser, 'password'>`) as cached. -/
structure IUserProfile where
  _id : Option (List Char)
  fields : JFields

def userToJ (u : IUserProfile) : Jval :=
  .jobj (match u._id with
    | none => u.fields
    | some i => .fcons "_id".data (.jstr i) u.fields)

/-- A favorite-status record `{ isFavorited: boolean; favoriteId?: string }`. -/
structure FavStatus where
  isFavorited : Bool
  favoriteId : Option (List Char)

def favStatusToJ (s : FavStatus) : Jval :=
  .jobj (.fcons "isFavorited".data (.jbool s.isFavorited)
    (match s.favoriteId with
     | none => .fnil
     | some i => .fcons "favoriteId".data (.jstr i) .fnil))

/-- `CacheService.cacheProperty`: early return when `property._id` is falsy
(absent or empty string), else `setCache` under the property key with the
property-family TTL. -/
def cacheProperty (st : CState) (p : IProperty) : CState :=
  match p._id with
  | none => st
  | some id => if id.isEmpty then st else setCache st (kProperty id) (propToJ p) ttlPROPERTY

/-- `CacheService.getCachedProperty`. -/
def getCachedProperty (st : CState) (propertyId : List Char) : Option Jval :=
  getCache st (kProperty propertyId)

/-- `CacheService.invalidateProperty`: delete the property's own key, then all
search-result keys, then all user-property-list keys. -/
def invalidateProperty (st : CState) (propertyId : List Char) : CState :=
  deleteCachePattern (deleteCachePattern (deleteCache st (kProperty propertyId)) patSearch)
    patUserPropertiesAll

/-- `CacheService.cacheUserProfile`: early return when `user._id` is falsy. -/
def cacheUserProfile (st : CState) (u : IUserProfile) : CState :=
  match u._id with
  | none => st
  | some id => if id.isEmpty then st else setCache st (kUserProfile id) (userToJ u) ttlUSER

/-- `CacheService.getCachedUserProfile`. -/
def getCachedUserProfile (st : CState) (userId : List Char) : Option Jval :=
  getCache st (kUserProfile userId)

/-- `CacheService.invalidateUserProfile`. -/
def invalidateUserProfile (st : CState) (userId : List Char) : CState :=
  deleteCache st (kUserProfile userId)

/-- `CacheService.cachePropertySearch`. -/
def cachePropertySearch (st : CState) (query : Query) (results : Jval) : CState :=
  setCache st (kPropertySearch (generateSearchKey query)) results ttlSEARCH

/-- `CacheService.getCachedPropertySearch`. -/
def getCachedPropertySearch (st : CState) (query : Query) : Option Jval :=
  getCache st (kPropertySearch (generateSearchKey query))

/-- `CacheService.invalidatePropertySearches`. -/
def invalidatePropertySearches (st : CState) : CState :=
  deleteCachePattern st patSearch

/-- `CacheService.cacheUserProperties`. -/
def cacheUserProperties (st : CState) (userId : List Char) (page limit : Nat)
    (results : Jval) : CState :=
  setCache st (kUserProperties userId page limit) results ttlPROPERTY_LIST

/-- `CacheService.getCachedUserProperties`. -/
def getCachedUserProperties (st : CState) (userId : List Char) (page limit : Nat) :
    Option Jval :=
  getCache st (kUserProperties userId page limit)

/-- `CacheService.invalidateUserProperties`: delete the user's paginated
property-list keys, then all search-result keys. -/
def invalidateUserProperties (st : CState) (userId : List Char) : CState :=
  invalidatePropertySearches (deleteCachePattern st (patUserProperties userId))

/-- `CacheService.cacheFavoriteStatus`. -/
def cacheFavoriteStatus (st : CState) (userId propertyId : List Char)
    (status : FavStatus) : CState :=
  setCache st (kFavStatus userId propertyId) (favStatusToJ status) ttlFAVORITES

/-- `CacheService.getCachedFavoriteStatus`. -/
def getCachedFavoriteStatus (st : CState) (userId propertyId : List Char) : Option Jval :=
  getCache st (kFavStatus userId propertyId)

/-- `CacheService.cacheUserFavorites`. -/
def cacheUserFavorites (st : CState) (userId : List Char) (page limit : Nat)
    (results : Jval) : CState :=
  setCache st (kUserFavorites userId page limit) results ttlFAVORITES

/-- `CacheService.getCachedUserFavorites`. -/
def getCachedUserFavorites (st : CState) (userId : List Char) (page limit : Nat) :
    Option Jval :=
  getCache st (kUserFavorites userId page limit)

/-- `CacheService.invalidateFavorites`: delete the user's paginated
favorites-list keys AND all of the user's favorite-status keys. -/
def invalidateFavorites (st : CState) (userId : List Char) : CState :=
  deleteCachePattern (deleteCachePattern st (patUserFavorites userId)) (patFavStatus userId)

/-- `CacheService.invalidateSpecificFavorite`. -/
def invalidateSpecificFavorite (st : CState) (userId propertyId : List Char) : CState :=
  deleteCachePattern (deleteCache st (kFavStatus userId propertyId)) (patUserFavorites userId)

/-- Field lookup in a JSON object's field list. -/
def fget : JFields → List Char → Option Jval
  | .fnil, _ => none
  | .fcons k1 v t, k => if k1 = k then some v else fget t k

/-- JavaScript property access on a parsed JSON value (non-objects have no
own properties worth modelling here). -/
def jget (v : Jval) (k : List Char) : Option Jval :=
  match v with
  | .jobj fs => fget fs k
  | _ => none

/-- JavaScript truthiness of an optional JSON value (`undefined`, `null`,
`false`, `0` and the empty string are falsy). -/
def jtruthy : Option Jval → Bool
  | none => false
  | some .jnull => false
  | some (.jbool b) => b
  | some (.jnum n) => decide (n ≠ 0)
  | some (.jstr s) => !s.isEmpty
  | some (.jarr _) => true
  | some (.jobj _) => true

/-- A favorite document in the durable store. -/
structure FavRow where
  favId : List Char
  userId : List Char
  propertyId : List Char
  notes : List Char
  tags : List (List Char)

/-- The durable store (MongoDB): property documents and favorite documents. -/
structure Db where
  properties : List IProperty
  favorites : List FavRow

/-- `Property.findById`. -/
def findPropById (db : Db) (propertyId : List Char) : Option IProperty :=
  db.properties.find? (fun r => decide (r._id = some propertyId))

/-- `Favorite.findOne({userId, propertyId})`. -/
def findFav (db : Db) (userId propertyId : List Char) : Option FavRow :=
  db.favorites.find? (fun f => decide (f.userId = userId) && decide (f.propertyId = propertyId))

/-- `Favorite.findOne({_id, userId})`. -/
def findFavById (db : Db) (favId userId : List Char) : Option FavRow :=
  db.favorites.find? (fun f => decide (f.favId = favId) && decide (f.userId = userId))

inductive AddOutcome where
  | badRequest
  | notFound
  | alreadyFavorited
  | created
deriving DecidableEq

structure AddResult where
  outcome : AddOutcome
  db : Db
  cache : CState
  dbMutated : Bool

/-- `FavoriteController.addToFavorites`: validate the id, check the property
exists, consult the cached favorite status (an early `400` without touching
the favorites collection when it is truthy with a truthy `isFavorited`), then
check the durable store, create the favorite, write through the new status
and invalidate the user's favorites caches. -/
def addToFavorites (db : Db) (st : CState) (userId propertyId newFavId notes : List Char)
    (tags : List (List Char)) : AddResult :=
  if propertyId.isEmpty then ⟨.badRequest, db, st, false⟩
  else if (findPropById db propertyId).isNone then ⟨.notFound, db, st, false⟩
  else
    let cached := getCachedFavoriteStatus st userId propertyId
    if jtruthy cached && jtruthy (cached.bind (fun v => jget v "isFavorited".data)) then
      ⟨.alreadyFavorited, db, st, false⟩
    else
      match findFav db userId propertyId with
      | some f =>
        ⟨.alreadyFavorited, db,
          cacheFavoriteStatus st userId propertyId ⟨true, some f.favId⟩, false⟩
      | none =>
        let db2 : Db :=
          ⟨db.properties, db.favorites ++ [⟨newFavId, userId, propertyId, notes, tags⟩]⟩
        let st1 := cacheFavoriteStatus st userId propertyId ⟨true, some newFavId⟩
        let st2 := invalidateFavorites st1 userId
        ⟨.created, db2, st2, true⟩

structure CheckResult where
  isFavorited : Option Jval
  favoriteId : Option Jval
  dbRead : Bool
  cache : CState

/-- `FavoriteController.checkFavoriteStatus`: answer from the cached status
when one is present (no durable-store read), otherwise read the favorites
collection, cache the computed status and answer from it.  (Mongo `_id`
strings are non-empty, so `status.favoriteId` is truthy exactly when a
favorite was found.) -/
def checkFavoriteStatus (db : Db) (st : CState) (userId propertyId : List Char) : CheckResult :=
  let cached := getCachedFavoriteStatus st userId propertyId
  if jtruthy cached then
    { isFavorited := cached.bind (fun v => jget v "isFavorited".data)
      favoriteId :=
        (let f := cached.bind (fun v => jget v "favoriteId".data)
         if jtruthy f then f else none)
      dbRead := false
      cache := st }
  else
    match findFav db userId propertyId with
    | some f =>
      { isFavorited := some (.jbool true)
        favoriteId := some (.jstr f.favId)
        dbRead := true
        cache := cacheFavoriteStatus st userId propertyId ⟨true, some f.favId⟩ }
    | none =>
      { isFavorited := some (.jbool false)
        favoriteId := none
        dbRead := true
        cache := cacheFavoriteStatus st userId propertyId ⟨false, none⟩ }

inductive RemOutcome where
  | badRequest
  | notFound
  | removed
deriving DecidableEq

structure RemResult where
  outcome : RemOutcome
  db : Db
  cache : CState
  dbMutated : Bool

def removeFirstFav : List FavRow → List Char → List Char → List FavRow
  | [], _, _ => []
  | f :: t, u, p =>
    if f.userId = u ∧ f.propertyId = p then t else f :: removeFirstFav t u p

/-- `FavoriteController.removeFromFavorites`: `findOneAndDelete`, then
write-through the cleared status and invalidate the user's favorites caches. -/
def removeFromFavorites (db : Db) (st : CState) (userId propertyId : List Char) : RemResult :=
  if propertyId.isEmpty then ⟨.badRequest, db, st, false⟩
  else
    match findFav db userId propertyId with
    | none => ⟨.notFound, db, st, false⟩
    | some _ =>
      let db2 : Db := ⟨db.properties, removeFirstFav db.favorites userId propertyId⟩
      let st1 := cacheFavoriteStatus st userId propertyId ⟨false, none⟩
      let st2 := invalidateFavorites st1 userId
      ⟨.removed, db2, st2, true⟩

inductive UpdFavOutcome where
  | notFound
  | updated
deriving DecidableEq

structure UpdFavResult where
  outcome : UpdFavOutcome
  db : Db
  cache : CState
  dbMutated : Bool

/-- `FavoriteController.updateFavorite`: `findOneAndUpdate` of notes/tags,
then `CacheService.invalidateFavorites(userId)`. -/
def updateFavoriteOp (db : Db) (st : CState) (userId favId notes : List Char)
    (tags : List (List Char)) : UpdFavResult :=
  match findFavById db favId userId with
  | none => ⟨.notFound, db, st, false⟩
  | some _ =>
    let db2 : Db := ⟨db.properties, db.favorites.map (fun f =>
      if decide (f.favId = favId) && decide (f.userId = userId)
      then { f with notes := notes, tags := tags } else f)⟩
    ⟨.updated, db2, invalidateFavorites st userId, true⟩

/-- `findByIdAndUpdate`'s field merge: set each updated field. -/
def setField : JFields → List Char → Jval → JFields
  | .fnil, k, v => .fcons k v .fnil
  | .fcons k1 v1 t, k, v =>
    if k1 = k then .fcons k1 v t else .fcons k1 v1 (setField t k v)

def applyUpd (fs : JFields) : List (List Char × Jval) → JFields
  | [] => fs
  | (k, v) :: rest => applyUpd (setField fs k v) rest

inductive UpdPropOutcome where
  | notFound
  | updated
deriving DecidableEq

structure UpdPropResult where
  outcome : UpdPropOutcome
  db : Db
  cache : CState
  dbMutated : Bool

/-- `PropertyController.updateProperty`: `findByIdAndUpdate`, then
`cacheProperty` of the fresh value, `invalidatePropertySearches`, and
`invalidateUserProperties(actingUserId)`. -/
def updatePropertyOp (db : Db) (st : CState) (actingUserId propertyId : List Char)
    (upd : List (List Char × Jval)) : UpdPropResult :=
  match findPropById db propertyId with
  | none => ⟨.notFound, db, st, false⟩
  | some old =>
    let fresh : IProperty := ⟨old._id, applyUpd old.fields upd⟩
    let db2 : Db := ⟨db.properties.map (fun r =>
      if decide (r._id = some propertyId) then fresh else r), db.favorites⟩
    let st1 := cacheProperty st fresh
    let st2 := invalidatePropertySearches st1
    let st3 := invalidateUserProperties st2 actingUserId
    ⟨.updated, db2, st3, true⟩

theorem nameLe_cons_iff (a b : Char) (as bs : List Char) :
    nameLe (a :: as) (b :: bs) = true ↔
      a.toNat < b.toNat ∨ (a.toNat = b.toNat ∧ nameLe as bs = true) := by
  by_cases h1 : a.toNat < b.toNat
  · simp [nameLe, h1]
  · by_cases h2 : b.toNat < a.toNat
    · have h3 : ¬ a.toNat = b.toNat := by omega
      simp [nameLe, h1, h2, h3]
    · have h3 : a.toNat = b.toNat := by omega
      simp [nameLe, h1, h2, h3]

theorem nameLe_total : ∀ a b : List Char, nameLe a b = true ∨ nameLe b a = true
  | [], _ => Or.inl rfl
  | _ :: _, [] => Or.inr rfl
  | a :: as, b :: bs => by
    rw [nameLe_cons_iff, nameLe_cons_iff]
    rcases nameLe_total as bs with h | h
    · by_cases h1 : a.toNat < b.toNat
      · exact Or.inl (Or.inl h1)
      · by_cases h2 : b.toNat < a.toNat
        · exact Or.inr (Or.inl h2)
        · exact Or.inl (Or.inr ⟨by omega, h⟩)
    · by_cases h1 : a.toNat < b.toNat
      · exact Or.inl (Or.inl h1)
      · by_cases h2 : b.toNat < a.toNat
        · exact Or.inr (Or.inl h2)
        · exact Or.inr (Or.inr ⟨by omega, h⟩)

theorem nameLe_trans : ∀ a b c : List Char,
    nameLe a b = true → nameLe b c = true → nameLe a c = true
  | [], _, _, _, _ => rfl
  | _ :: _, [], _, hab, _ => by simp [nameLe] at hab
  | _ :: _, _ :: _, [], _, hbc => by simp [nameLe] at hbc
  | a :: as, b :: bs, c :: cs, hab, hbc => by
    rw [nameLe_cons_iff] at hab hbc ⊢
    rcases hab with h | ⟨he1, hr1⟩
    · rcases hbc with h2 | ⟨he2, _⟩
      · exact Or.inl (by omega)
      · exact Or.inl (by omega)
    · rcases hbc with h2 | ⟨he2, hr2⟩
      · exact Or.inl (by omega)
      · exact Or.inr ⟨by omega, nameLe_trans as bs cs hr1 hr2⟩

theorem nameLe_antisymm : ∀ a b : List Char,
    nameLe a b = true → nameLe b a = true → a = b
  | [], [], _, _ => rfl
  | [], _ :: _, _, hba => by simp [nameLe] at hba
  | _ :: _, [], hab, _ => by simp [nameLe] at hab
  | a :: as, b :: bs, hab, hba => by
    rw [nameLe_cons_iff] at hab hba
    rcases hab with h | ⟨he1, hr1⟩
    · rcases hba with h2 | ⟨he2, _⟩ <;> omega
    · rcases hba with h2 | ⟨he2, hr2⟩
      · omega
      · have hc : a = b := Char.eq_of_val_eq (UInt32.ext he1)
        rw [hc, nameLe_antisymm as bs hr1 hr2]

instance : IsTotal (List Char × List Char) nameLeP := ⟨fun x y => nameLe_total x.1 y.1⟩

instance : IsTrans (List Char × List Char) nameLeP :=
  ⟨fun _ _ _ hxy hyz => nameLe_trans _ _ _ hxy hyz⟩

/-- The strict-or-equal order used to identify the two sorted lists: equal
pairs, or name-distinct pairs in name order. -/
def QR (x y : List Char × List Char) : Prop := x = y ∨ (x.1 ≠ y.1 ∧ nameLeP x y)

instance : IsAntisymm (List Char × List Char) QR := ⟨by
  intro a b hab hba
  rcases hab with rfl | ⟨hne, hle⟩
  · rfl
  · rcases hba with h | ⟨hne2, hle2⟩
    · exact h.symm
    · exact absurd (nameLe_antisymm _ _ hle hle2) hne⟩

theorem sorted_QR (l : Query) (hs : List.Sorted nameLeP l)
    (hn : (l.map Prod.fst).Nodup) : List.Pairwise QR l := by
  have hs' : List.Pairwise nameLeP l := hs
  have hn' : List.Pairwise (fun x y : List Char × List Char => x.1 ≠ y.1) l :=
    (List.pairwise_map).1 hn
  exact (hs'.and hn').imp (fun h => Or.inr ⟨h.2, h.1⟩)

/-- Two queries that are permutations of each other (with no repeated
parameter name) sort to the same list. -/
theorem sortQuery_eq_of_perm (q1 q2 : Query) (hp : q1.Perm q2)
    (hn : (q1.map Prod.fst).Nodup) : sortQuery q1 = sortQuery q2 := by
  have hps1 : (sortQuery q1).Perm q1 := List.perm_insertionSort _ _
  have hps2 : (sortQuery q2).Perm q2 := List.perm_insertionSort _ _
  have hp' : (sortQuery q1).Perm (sortQuery q2) := hps1.trans (hp.trans hps2.symm)
  have hn1 : ((sortQuery q1).map Prod.fst).Nodup := ((hps1.map Prod.fst).nodup_iff).2 hn
  have hn2 : ((sortQuery q2).map Prod.fst).Nodup := ((hp'.symm.map Prod.fst).nodup_iff).2 hn1
  exact List.eq_of_perm_of_sorted hp'
    (sorted_QR _ (List.sorted_insertionSort _ _) hn1)
    (sorted_QR _ (List.sorted_insertionSort _ _) hn2)

theorem storeGet_storeSet_self (s : Store) (k : List Char) (e : Entry) :
    storeGet (storeSet s k e) k = some e := by
  simp [storeSet, storeGet]

theorem getCache_setCache_self (s : Store) (k : List Char) (d : Jval) (ttl : Nat) :
    getCache (setCache (some s) k d ttl) k = some d := by
  show (match storeGet (storeSet s k ⟨encodeJ d, ttl⟩) k with
        | none => none
        | some e => if e.data.isEmpty then none else decodeJ e.data) = some d
  rw [storeGet_storeSet_self]
  have hne : (encodeJ d).isEmpty = false := by
    cases henc : encodeJ d with
    | nil => exact absurd henc (encodeJ_ne_nil d)
    | cons a l => rfl
  simp [hne, decodeJ_encodeJ]

theorem storeGet_delPattern_some : ∀ (s : Store) (pat k : List Char) (e : Entry),
    storeGet (storeDelPattern s pat) k = some e →
    globMatch pat k = false ∧ storeGet s k = some e := by
  intro s pat k e
  induction s with
  | nil => intro h; simp [storeDelPattern, storeGet] at h
  | cons x t ih =>
    obtain ⟨xk, xe⟩ := x
    intro h
    by_cases hm : globMatch pat xk
    · have hdel : storeDelPattern ((xk, xe) :: t) pat = storeDelPattern t pat := by
        simp [storeDelPattern, List.filter, hm]
      rw [hdel] at h
      have r := ih h
      refine ⟨r.1, ?_⟩
      by_cases hk : xk = k
      · subst hk
        rw [hm] at r
        exact absurd r.1 (by simp)
      · simp [storeGet, hk, r.2]
    · have hdel : storeDelPattern ((xk, xe) :: t) pat
          = (xk, xe) :: storeDelPattern t pat := by
        simp [storeDelPattern, List.filter, hm]
      rw [hdel] at h
      by_cases hk : xk = k
      · rw [show storeGet ((xk, xe) :: storeDelPattern t pat) k = some xe from by
          simp [storeGet, hk]] at h
        subst hk
        refine ⟨by simpa using hm, ?_⟩
        simp [storeGet, h]
      · rw [show storeGet ((xk, xe) :: storeDelPattern t pat) k
            = storeGet (storeDelPattern t pat) k from by simp [storeGet, hk]] at h
        have r := ih h
        exact ⟨r.1, by simp [storeGet, hk, r.2]⟩

theorem storeGet_delPattern_no_match : ∀ (s : Store) (pat k : List Char),
    globMatch pat k = false →
    storeGet (storeDelPattern s pat) k = storeGet s k := by
  intro s pat k hnm
  induction s with
  | nil => rfl
  | cons x t ih =>
    obtain ⟨xk, xe⟩ := x
    by_cases hm : globMatch pat xk
    · have hk : ¬ (xk = k) := by
        rintro rfl
        rw [hm] at hnm
        cases hnm
      have hdel : storeDelPattern ((xk, xe) :: t) pat = storeDelPattern t pat := by
        simp [storeDelPattern, List.filter, hm]
      rw [hdel, ih]
      simp [storeGet, hk]
    · have hdel : storeDelPattern ((xk, xe) :: t) pat
          = (xk, xe) :: storeDelPattern t pat := by
        simp [storeDelPattern, List.filter, hm]
      rw [hdel]
      by_cases hk : xk = k
      · simp [storeGet, hk]
      · simp [storeGet, hk, ih]

theorem globAux_lit_mismatch : ∀ (f : Nat) (c d : Char) (ps ss : List Char),
    c ≠ '*' → c ≠ '?' → c ≠ d → globAux f (c :: ps) (d :: ss) = false
  | 0, _, _, _, _, _, _, _ => rfl
  | f+1, c, d, ps, ss, hc1, hc2, hcd => by
    simp [globAux, hc1, hc2, hcd]

theorem globMatch_patSearch_kProperty (pid : List Char) :
    globMatch patSearch (kProperty pid) = false := by
  have h1 : patSearch = 's' :: "earch:properties:*".data := rfl
  have h2 : kProperty pid = 'p' :: ("roperty:".data ++ pid) := rfl
  rw [globMatch, h1, h2]
  exact globAux_lit_mismatch _ 's' 'p' _ _ (by decide) (by decide) (by decide)

theorem globMatch_patUserProperties_kProperty (u pid : List Char) :
    globMatch (patUserProperties u) (kProperty pid) = false := by
  have h1 : patUserProperties u = 'u' :: ("ser:properties:".data ++ (u ++ ":*".data)) := rfl
  have h2 : kProperty pid = 'p' :: ("roperty:".data ++ pid) := rfl
  rw [globMatch, h1, h2]
  exact globAux_lit_mismatch _ 'u' 'p' _ _ (by decide) (by decide) (by decide)

/-- The store entry visible through the client handle at a key. -/
def cacheEntry (st : CState) (k : List Char) : Option Entry :=
  match st with
  | none => none
  | some s => storeGet s k

theorem cacheProperty_none (p : IProperty) : cacheProperty none p = none := by
  unfold cacheProperty
  cases p._id with
  | none => rfl
  | some id => by_cases h : id.isEmpty <;> simp [h, setCache]

theorem cacheUserProfile_none (u : IUserProfile) : cacheUserProfile none u = none := by
  unfold cacheUserProfile
  cases u._id with
  | none => rfl
  | some id => by_cases h : id.isEmpty <;> simp [h, setCache]

/-- C6: when the cache store is unavailable (no connected client), every
`getCached*` operation returns miss (`none`) and every `cache*` and
`invalidate*` operation returns normally, leaving the (absent) store
untouched, for all inputs. -/
theorem c6_unavailable_miss_noop (key pat id uid pid : List Char) (q : Query)
    (d r : Jval) (t page limit : Nat) (p : IProperty) (u : IUserProfile) (fs : FavStatus) :
    getCache none key = none ∧
    setCache none key d t = none ∧
    deleteCache none key = none ∧
    deleteCachePattern none pat = none ∧
    getCachedProperty none id = none ∧
    cacheProperty none p = none ∧
    invalidateProperty none id = none ∧
    getCachedUserProfile none uid = none ∧
    cacheUserProfile none u = none ∧
    invalidateUserProfile none uid = none ∧
    getCachedPropertySearch none q = none ∧
    cachePropertySearch none q r = none ∧
    invalidatePropertySearches none = none ∧
    getCachedUserProperties none uid page limit = none ∧
    cacheUserProperties none uid page limit r = none ∧
    invalidateUserProperties none uid = none ∧
    getCachedFavoriteStatus none uid pid = none ∧
    cacheFavoriteStatus none uid pid fs = none ∧
    getCachedUserFavorites none uid page limit = none ∧
    cacheUserFavorites none uid page limit r = none ∧
    invalidateFavorites none uid = none ∧
    invalidateSpecificFavorite none uid pid = none :=
  ⟨rfl, rfl, rfl, rfl, rfl, cacheProperty_none p, rfl, rfl, cacheUserProfile_none u, rfl,
    rfl, rfl, rfl, rfl, rfl, rfl, rfl, rfl, rfl, rfl, rfl, rfl⟩

/-- C9: every cache write uses exactly its resource family's fixed TTL in
seconds: property 900, user profile 1800, search results 300, user-property
lists 600, user-favorites lists 600, favorite-status 600. -/
theorem c9_ttl_per_family :
    (∀ (s : Store) (p : IProperty) (id : List Char), p._id = some id → id.isEmpty = false →
      cacheProperty (some s) p
        = some (storeSet s (kProperty id) ⟨encodeJ (propToJ p), 900⟩)) ∧
    (∀ (s : Store) (u : IUserProfile) (id : List Char), u._id = some id → id.isEmpty = false →
      cacheUserProfile (some s) u
        = some (storeSet s (kUserProfile id) ⟨encodeJ (userToJ u), 1800⟩)) ∧
    (∀ (s : Store) (q : Query) (r : Jval),
      cachePropertySearch (some s) q r
        = some (storeSet s (kPropertySearch (generateSearchKey q)) ⟨encodeJ r, 300⟩)) ∧
    (∀ (s : Store) (uid : List Char) (page limit : Nat) (r : Jval),
      cacheUserProperties (some s) uid page limit r
        = some (storeSet s (kUserProperties uid page limit) ⟨encodeJ r, 600⟩)) ∧
    (∀ (s : Store) (uid : List Char) (page limit : Nat) (r : Jval),
      cacheUserFavorites (some s) uid page limit r
        = some (storeSet s (kUserFavorites uid page limit) ⟨encodeJ r, 600⟩)) ∧
    (∀ (s : Store) (uid pid : List Char) (fs : FavStatus),
      cacheFavoriteStatus (some s) uid pid fs
        = some (storeSet s (kFavStatus uid pid) ⟨encodeJ (favStatusToJ fs), 600⟩)) := by
  refine ⟨?_, ?_, fun s q r => rfl, fun s uid page limit r => rfl,
    fun s uid page limit r => rfl, fun s uid pid fs => rfl⟩
  · intro s p id h1 h2
    unfold cacheProperty
    rw [h1]
    show (if id.isEmpty = true then some s
          else setCache (some s) (kProperty id) (propToJ p) ttlPROPERTY) = _
    rw [h2]
    rfl
  · intro s u id h1 h2
    unfold cacheUserProfile
    rw [h1]
    show (if id.isEmpty = true then some s
          else setCache (some s) (kUserProfile id) (userToJ u) ttlUSER) = _
    rw [h2]
    rfl

/-- Witness for C9 at concrete inputs. -/
theorem c9_ttl_per_family_witness :
    cacheProperty (some []) ⟨some ['x'], .fnil⟩
      = some (storeSet [] (kProperty ['x']) ⟨encodeJ (propToJ ⟨some ['x'], .fnil⟩), 900⟩) ∧
    cacheUserProfile (some []) ⟨some ['y'], .fnil⟩
      = some (storeSet [] (kUserProfile ['y']) ⟨encodeJ (userToJ ⟨some ['y'], .fnil⟩), 1800⟩) ∧
    cachePropertySearch (some []) [] .jnull
      = some (storeSet [] (kPropertySearch (generateSearchKey [])) ⟨encodeJ .jnull, 300⟩) ∧
    cacheUserProperties (some []) ['u'] 1 10 .jnull
      = some (storeSet [] (kUserProperties ['u'] 1 10) ⟨encodeJ .jnull, 600⟩) ∧
    cacheUserFavorites (some []) ['u'] 1 10 .jnull
      = some (storeSet [] (kUserFavorites ['u'] 1 10) ⟨encodeJ .jnull, 600⟩) ∧
    cacheFavoriteStatus (some []) ['u'] ['p'] ⟨true, none⟩
      = some (storeSet [] (kFavStatus ['u'] ['p']) ⟨encodeJ (favStatusToJ ⟨true, none⟩), 600⟩) :=
  ⟨c9_ttl_per_family.1 [] ⟨some ['x'], .fnil⟩ ['x'] rfl rfl,
    c9_ttl_per_family.2.1 [] ⟨some ['y'], .fnil⟩ ['y'] rfl rfl,
    c9_ttl_per_family.2.2.1 [] [] .jnull,
    c9_ttl_per_family.2.2.2.1 [] ['u'] 1 10 .jnull,
    c9_ttl_per_family.2.2.2.2.1 [] ['u'] 1 10 .jnull,
    c9_ttl_per_family.2.2.2.2.2 [] ['u'] ['p'] ⟨true, none⟩⟩

/-- C10: `cacheProperty` on a property lacking an `_id` and
`cacheUserProfile` on a user lacking an `_id` are complete no-ops: the cache
state is returned unchanged and no error is raised. -/
theorem c10_missing_id_noop (st : CState) (p : IProperty) (u : IUserProfile)
    (hp : p._id = none) (hu : u._id = none) :
    cacheProperty st p = st ∧ cacheUserProfile st u = st := by
  constructor
  · unfold cacheProperty
    rw [hp]
  · unfold cacheUserProfile
    rw [hu]

/-- Witness for C10 at concrete inputs. -/
theorem c10_missing_id_noop_witness :
    cacheProperty (some [(['k'], ⟨['v'], 1⟩)]) ⟨none, .fnil⟩ = some [(['k'], ⟨['v'], 1⟩)] ∧
    cacheUserProfile (some [(['k'], ⟨['v'], 1⟩)]) ⟨none, .fnil⟩ = some [(['k'], ⟨['v'], 1⟩)] :=
  c10_missing_id_noop (some [(['k'], ⟨['v'], 1⟩)]) ⟨none, .fnil⟩ ⟨none, .fnil⟩ rfl rfl

/-- C8: the codec round-trip law (`decode(encode(v)) = v` for every
encodable value), and consequently `cacheProperty(p)` immediately followed by
`getCachedProperty(p._id)` (store available) returns a value equal to `p`. -/
theorem c8_roundtrip_write_read :
    (∀ v : Jval, decodeJ (encodeJ v) = some v) ∧
    (∀ (s : Store) (p : IProperty) (id : List Char), p._id = some id → id.isEmpty = false →
      getCachedProperty (cacheProperty (some s) p) id = some (propToJ p)) := by
  refine ⟨decodeJ_encodeJ, ?_⟩
  intro s p id h1 h2
  unfold cacheProperty
  rw [h1]
  show getCachedProperty (if id.isEmpty = true then some s
      else setCache (some s) (kProperty id) (propToJ p) ttlPROPERTY) id = _
  rw [h2]
  show getCache (setCache (some s) (kProperty id) (propToJ p) ttlPROPERTY) (kProperty id) = _
  exact getCache_setCache_self s (kProperty id) (propToJ p) ttlPROPERTY

/-- Witness for C8 at a concrete property. -/
theorem c8_roundtrip_write_read_witness :
    decodeJ (encodeJ (.jobj (.fcons ['a'] (.jnum 7) .fnil)))
      = some (.jobj (.fcons ['a'] (.jnum 7) .fnil)) ∧
    getCachedProperty (cacheProperty (some []) ⟨some ['x'], .fcons ['a'] (.jnum 7) .fnil⟩) ['x']
      = some (propToJ ⟨some ['x'], .fcons ['a'] (.jnum 7) .fnil⟩) :=
  ⟨c8_roundtrip_write_read.1 (.jobj (.fcons ['a'] (.jnum 7) .fnil)),
    c8_roundtrip_write_read.2 [] ⟨some ['x'], .fcons ['a'] (.jnum 7) .fnil⟩ ['x'] rfl rfl⟩

theorem getCache_undecodable (s : Store) (k : List Char) (e : Entry)
    (hg : storeGet s k = some e) (hd : decodeJ e.data = none) :
    getCache (some s) k = none := by
  show (match storeGet s k with
        | none => none
        | some e => if e.data.isEmpty then none else decodeJ e.data) = none
  rw [hg]
  by_cases hemp : e.data.isEmpty <;> simp [hemp, hd]

/-- C7: a stored entry whose bytes the codec cannot decode is treated as a
miss by every `getCached*` read, and no error is propagated. -/
theorem c7_decode_error_is_miss (s : Store) (e : Entry)
    (id uid pid : List Char) (q : Query) (page limit : Nat)
    (hdec : decodeJ e.data = none) :
    (storeGet s (kProperty id) = some e → getCachedProperty (some s) id = none) ∧
    (storeGet s (kUserProfile uid) = some e → getCachedUserProfile (some s) uid = none) ∧
    (storeGet s (kPropertySearch (generateSearchKey q)) = some e →
      getCachedPropertySearch (some s) q = none) ∧
    (storeGet s (kUserProperties uid page limit) = some e →
      getCachedUserProperties (some s) uid page limit = none) ∧
    (storeGet s (kUserFavorites uid page limit) = some e →
      getCachedUserFavorites (some s) uid page limit = none) ∧
    (storeGet s (kFavStatus uid pid) = some e →
      getCachedFavoriteStatus (some s) uid pid = none) :=
  ⟨fun h => getCache_undecodable s _ e h hdec,
    fun h => getCache_undecodable s _ e h hdec,
    fun h => getCache_undecodable s _ e h hdec,
    fun h => getCache_undecodable s _ e h hdec,
    fun h => getCache_undecodable s _ e h hdec,
    fun h => getCache_undecodable s _ e h hdec⟩

/-- A concrete store whose six family keys all hold undecodable bytes. -/
def w7e : Entry := ⟨['x'], 600⟩

def w7store : Store :=
  [(kProperty ['i'], w7e), (kUserProfile ['u'], w7e),
   (kPropertySearch (generateSearchKey [(['a'], ['1'])]), w7e),
   (kUserProperties ['u'] 1 10, w7e), (kUserFavorites ['u'] 1 10, w7e),
   (kFavStatus ['u'] ['p'], w7e)]

/-- Witness for C7: each `getCached*` read over a corrupted entry misses. -/
theorem c7_decode_error_is_miss_witness :
    getCachedProperty (some w7store) ['i'] = none ∧
    getCachedUserProfile (some w7store) ['u'] = none ∧
    getCachedPropertySearch (some w7store) [(['a'], ['1'])] = none ∧
    getCachedUserProperties (some w7store) ['u'] 1 10 = none ∧
    getCachedUserFavorites (some w7store) ['u'] 1 10 = none ∧
    getCachedFavoriteStatus (some w7store) ['u'] ['p'] = none := by
  have h := c7_decode_error_is_miss w7store w7e ['i'] ['u'] ['p'] [(['a'], ['1'])] 1 10 rfl
  exact ⟨h.1 rfl, h.2.1 rfl, h.2.2.1 rfl, h.2.2.2.1 rfl, h.2.2.2.2.1 rfl, h.2.2.2.2.2 rfl⟩

/-- C2: the search cache key is invariant under re-enumeration of the query
parameters — two queries equal as sets of (name, value) pairs (no repeated
name) generate the same key, so caching under one and reading under the
other hits with the cached results. -/
theorem c2_search_key_commutative (q1 q2 : Query) (s : Store) (r : Jval)
    (hp : q1.Perm q2) (hn : (q1.map Prod.fst).Nodup) :
    generateSearchKey q1 = generateSearchKey q2 ∧
    getCachedPropertySearch (cachePropertySearch (some s) q1 r) q2 = some r := by
  have hk : generateSearchKey q1 = generateSearchKey q2 := by
    unfold generateSearchKey
    rw [sortQuery_eq_of_perm q1 q2 hp hn]
  refine ⟨hk, ?_⟩
  unfold getCachedPropertySearch cachePropertySearch
  rw [← hk]
  exact getCache_setCache_self s (kPropertySearch (generateSearchKey q1)) r ttlSEARCH

/-- Witness for C2: two enumeration orders of the same two-parameter query. -/
theorem c2_search_key_commutative_witness :
    generateSearchKey [(['b'], ['2']), (['a'], ['1'])]
      = generateSearchKey [(['a'], ['1']), (['b'], ['2'])] ∧
    getCachedPropertySearch
      (cachePropertySearch (some []) [(['b'], ['2']), (['a'], ['1'])] (.jstr ['r']))
      [(['a'], ['1']), (['b'], ['2'])] = some (.jstr ['r']) :=
  c2_search_key_commutative [(['b'], ['2']), (['a'], ['1'])] [(['a'], ['1']), (['b'], ['2'])]
    [] (.jstr ['r']) (List.Perm.swap (['a'], ['1']) (['b'], ['2']) []) (by decide)

theorem storeDelPattern_idem (s : Store) (p : List Char) :
    storeDelPattern (storeDelPattern s p) p = storeDelPattern s p := by
  unfold storeDelPattern
  rw [List.filter_filter]
  congr 1
  funext kv
  cases globMatch p kv.1 <;> rfl

theorem storeDelPattern_comm (s : Store) (p1 p2 : List Char) :
    storeDelPattern (storeDelPattern s p1) p2 = storeDelPattern (storeDelPattern s p2) p1 := by
  unfold storeDelPattern
  rw [List.filter_filter, List.filter_filter]
  congr 1
  funext kv
  cases globMatch p1 kv.1 <;> cases globMatch p2 kv.1 <;> rfl

theorem getCache_of_storeGet_enc (s : Store) (k : List Char) (d : Jval) (t : Nat)
    (h : storeGet s k = some ⟨encodeJ d, t⟩) : getCache (some s) k = some d := by
  show (match storeGet s k with
        | none => none
        | some e => if e.data.isEmpty then none else decodeJ e.data) = some d
  rw [h]
  have hne : (encodeJ d).isEmpty = false := by
    cases henc : encodeJ d with
    | nil => exact absurd henc (encodeJ_ne_nil d)
    | cons a l => rfl
  simp [hne, decodeJ_encodeJ]

/-- C3: after a successful domain property update (store available), the
property's cache entry is the fresh updated value (so a read is a miss or the
fresh value), and no entry under a key matching `search:properties:*` or
`user:properties:<actingUser>:*` remains — re-running either pattern delete
is a no-op. -/
theorem c3_update_cascades (db : Db) (s : Store) (u pid : List Char)
    (upd : List (List Char × Jval)) (old : IProperty)
    (hfind : findPropById db pid = some old) (hpid : pid ≠ []) :
    (updatePropertyOp db (some s) u pid upd).outcome = .updated ∧
    (getCachedProperty (updatePropertyOp db (some s) u pid upd).cache pid = none ∨
     getCachedProperty (updatePropertyOp db (some s) u pid upd).cache pid
       = some (propToJ ⟨old._id, applyUpd old.fields upd⟩)) ∧
    (∀ (k : List Char) (e : Entry),
      cacheEntry (updatePropertyOp db (some s) u pid upd).cache k = some e →
      globMatch patSearch k = false ∧ globMatch (patUserProperties u) k = false) ∧
    deleteCachePattern (updatePropertyOp db (some s) u pid upd).cache patSearch
      = (updatePropertyOp db (some s) u pid upd).cache ∧
    deleteCachePattern (updatePropertyOp db (some s) u pid upd).cache (patUserProperties u)
      = (updatePropertyOp db (some s) u pid upd).cache := by
  have hid : old._id = some pid := by
    unfold findPropById at hfind
    exact of_decide_eq_true (List.find?_eq_some.mp hfind).1
  have hemp : pid.isEmpty = false := by
    cases pid with
    | nil => exact absurd rfl hpid
    | cons a l => rfl
  have hcp : cacheProperty (some s) ⟨old._id, applyUpd old.fields upd⟩
      = setCache (some s) (kProperty pid)
          (propToJ ⟨old._id, applyUpd old.fields upd⟩) ttlPROPERTY := by
    unfold cacheProperty
    show (match old._id with
          | none => some s
          | some id => if id.isEmpty = true then some s
              else setCache (some s) (kProperty id)
                (propToJ ⟨old._id, applyUpd old.fields upd⟩) ttlPROPERTY) = _
    rw [hid]
    show (if pid.isEmpty = true then some s
          else setCache (some s) (kProperty pid)
            (propToJ ⟨some pid, applyUpd old.fields upd⟩) ttlPROPERTY) = _
    rw [hemp]
    rfl
  have hcache : (updatePropertyOp db (some s) u pid upd).cache
      = some (storeDelPattern (storeDelPattern (storeDelPattern
          (storeSet s (kProperty pid)
            ⟨encodeJ (propToJ ⟨old._id, applyUpd old.fields upd⟩), ttlPROPERTY⟩)
          patSearch) (patUserProperties u)) patSearch) := by
    unfold updatePropertyOp
    rw [hfind]
    show invalidateUserProperties (invalidatePropertySearches
        (cacheProperty (some s) ⟨old._id, applyUpd old.fields upd⟩)) u = _
    rw [hcp]
    rfl
  have houtcome : (updatePropertyOp db (some s) u pid upd).outcome = .updated := by
    unfold updatePropertyOp
    rw [hfind]
  refine ⟨houtcome, ?_, ?_, ?_, ?_⟩
  · right
    rw [hcache]
    apply getCache_of_storeGet_enc
    rw [storeGet_delPattern_no_match _ _ _ (globMatch_patSearch_kProperty pid),
      storeGet_delPattern_no_match _ _ _ (globMatch_patUserProperties_kProperty u pid),
      storeGet_delPattern_no_match _ _ _ (globMatch_patSearch_kProperty pid),
      storeGet_storeSet_self]
  · intro k e h
    rw [hcache] at h
    have h' : storeGet (storeDelPattern (storeDelPattern (storeDelPattern
        (storeSet s (kProperty pid)
          ⟨encodeJ (propToJ ⟨old._id, applyUpd old.fields upd⟩), ttlPROPERTY⟩)
        patSearch) (patUserProperties u)) patSearch) k = some e := h
    have r1 := storeGet_delPattern_some _ _ _ _ h'
    have r2 := storeGet_delPattern_some _ _ _ _ r1.2
    exact ⟨r1.1, r2.1⟩
  · rw [hcache]
    show some (storeDelPattern (storeDelPattern (storeDelPattern (storeDelPattern _
        patSearch) (patUserProperties u)) patSearch) patSearch) = _
    rw [storeDelPattern_idem]
  · rw [hcache]
    show some (storeDelPattern (storeDelPattern (storeDelPattern (storeDelPattern _
        patSearch) (patUserProperties u)) patSearch) (patUserProperties u)) = _
    rw [storeDelPattern_comm _ patSearch (patUserProperties u), storeDelPattern_idem]

/-- Witness for C3 at a concrete database, store and update. -/
theorem c3_update_cascades_witness :
    (updatePropertyOp ⟨[⟨some ['p','1'], .fnil⟩], []⟩ (some []) ['u','1'] ['p','1']
        [(['a'], .jnum 5)]).outcome = .updated ∧
    (getCachedProperty (updatePropertyOp ⟨[⟨some ['p','1'], .fnil⟩], []⟩ (some [])
        ['u','1'] ['p','1'] [(['a'], .jnum 5)]).cache ['p','1'] = none ∨
     getCachedProperty (updatePropertyOp ⟨[⟨some ['p','1'], .fnil⟩], []⟩ (some [])
        ['u','1'] ['p','1'] [(['a'], .jnum 5)]).cache ['p','1']
       = some (propToJ ⟨(⟨some ['p','1'], .fnil⟩ : IProperty)._id,
           applyUpd (⟨some ['p','1'], .fnil⟩ : IProperty).fields [(['a'], .jnum 5)]⟩)) ∧
    deleteCachePattern (updatePropertyOp ⟨[⟨some ['p','1'], .fnil⟩], []⟩ (some [])
        ['u','1'] ['p','1'] [(['a'], .jnum 5)]).cache patSearch
      = (updatePropertyOp ⟨[⟨some ['p','1'], .fnil⟩], []⟩ (some [])
        ['u','1'] ['p','1'] [(['a'], .jnum 5)]).cache ∧
    deleteCachePattern (updatePropertyOp ⟨[⟨some ['p','1'], .fnil⟩], []⟩ (some [])
        ['u','1'] ['p','1'] [(['a'], .jnum 5)]).cache (patUserProperties ['u','1'])
      = (updatePropertyOp ⟨[⟨some ['p','1'], .fnil⟩], []⟩ (some [])
        ['u','1'] ['p','1'] [(['a'], .jnum 5)]).cache := by
  have h := c3_update_cascades ⟨[⟨some ['p','1'], .fnil⟩], []⟩ [] ['u','1'] ['p','1']
    [(['a'], .jnum 5)] ⟨some ['p','1'], .fnil⟩ rfl (by decide)
  exact ⟨h.1, h.2.1, h.2.2.2.1, h.2.2.2.2⟩

/-- C1 (divergence exhibit): after a successful `addToFavorites(u1, p1)`, the
favorite-status entry the operation wrote is no longer in the cache (the
trailing `invalidateFavorites` deletes `favorite:status:u1:*`), so the
subsequent `checkFavoriteStatus(u1, p1)` is a miss that performs a
durable-store read — not the cache hit the claim asserts. -/
theorem c1_add_then_check_is_miss :
    (addToFavorites ⟨[⟨some ['p','1'], .fnil⟩], []⟩ (some []) ['u','1'] ['p','1']
        ['f','1'] [] []).outcome = .created ∧
    getCachedFavoriteStatus (addToFavorites ⟨[⟨some ['p','1'], .fnil⟩], []⟩ (some [])
        ['u','1'] ['p','1'] ['f','1'] [] []).cache ['u','1'] ['p','1'] = none ∧
    (checkFavoriteStatus
        (addToFavorites ⟨[⟨some ['p','1'], .fnil⟩], []⟩ (some []) ['u','1'] ['p','1']
          ['f','1'] [] []).db
        (addToFavorites ⟨[⟨some ['p','1'], .fnil⟩], []⟩ (some []) ['u','1'] ['p','1']
          ['f','1'] [] []).cache
        ['u','1'] ['p','1']).dbRead = true :=
  ⟨rfl, rfl, rfl⟩

/-- C4 (counterexample): with the same durable state (property `p1` exists,
no favorite rows), `addToFavorites(u1, p1)` succeeds and writes the durable
store when the cache is empty, but fails with "already favorited" and writes
nothing when the cache holds a (stale) truthy favorite-status entry — the
operation's outcome depends on cache contents. -/
theorem c4_cache_decides_add_outcome :
    (addToFavorites ⟨[⟨some ['p','1'], .fnil⟩], []⟩ (some []) ['u','1'] ['p','1']
        ['f','1'] [] []).outcome = .created ∧
    (addToFavorites ⟨[⟨some ['p','1'], .fnil⟩], []⟩ (some []) ['u','1'] ['p','1']
        ['f','1'] [] []).dbMutated = true ∧
    (addToFavorites ⟨[⟨some ['p','1'], .fnil⟩], []⟩
        (some [(kFavStatus ['u','1'] ['p','1'],
          ⟨encodeJ (favStatusToJ ⟨true, some ['f','9']⟩), 600⟩)])
        ['u','1'] ['p','1'] ['f','1'] [] []).outcome = .alreadyFavorited ∧
    (addToFavorites ⟨[⟨some ['p','1'], .fnil⟩], []⟩
        (some [(kFavStatus ['u','1'] ['p','1'],
          ⟨encodeJ (favStatusToJ ⟨true, some ['f','9']⟩), 600⟩)])
        ['u','1'] ['p','1'] ['f','1'] [] []).dbMutated = false :=
  ⟨rfl, rfl, rfl, rfl⟩

/-- C4 (amended): every modeled domain mutation other than `addToFavorites` —
`removeFromFavorites`, `updateFavorite`, `updateProperty` — has an outcome,
resulting durable state and mutation flag that are independent of the cache
contents. -/
theorem c4_other_ops_cache_independent (db : Db) (stA stB : CState)
    (u p fid notes pid : List Char) (tags : List (List Char))
    (upd : List (List Char × Jval)) :
    ((removeFromFavorites db stA u p).outcome = (removeFromFavorites db stB u p).outcome ∧
     (removeFromFavorites db stA u p).db = (removeFromFavorites db stB u p).db ∧
     (removeFromFavorites db stA u p).dbMutated = (removeFromFavorites db stB u p).dbMutated) ∧
    ((updateFavoriteOp db stA u fid notes tags).outcome
        = (updateFavoriteOp db stB u fid notes tags).outcome ∧
     (updateFavoriteOp db stA u fid notes tags).db
        = (updateFavoriteOp db stB u fid notes tags).db ∧
     (updateFavoriteOp db stA u fid notes tags).dbMutated
        = (updateFavoriteOp db stB u fid notes tags).dbMutated) ∧
    ((updatePropertyOp db stA u pid upd).outcome = (updatePropertyOp db stB u pid upd).outcome ∧
     (updatePropertyOp db stA u pid upd).db = (updatePropertyOp db stB u pid upd).db ∧
     (updatePropertyOp db stA u pid upd).dbMutated
        = (updatePropertyOp db stB u pid upd).dbMutated) := by
  refine ⟨?_, ?_, ?_⟩
  · by_cases hp : p.isEmpty = true <;> cases hf : findFav db u p <;>
      simp [removeFromFavorites, hp, hf]
  · cases hf : findFavById db fid u <;> simp [updateFavoriteOp, hf]
  · cases hf : findPropById db pid <;> simp [updatePropertyOp, hf]

/-- C5 (divergence exhibit): a notes/tags-only favorite update deletes the
user's paginated favorites-list key (as claimed) but ALSO deletes the user's
favorite-status entry `favorite:status:u1:p1` via
`invalidateFavorites(userId)`, contradicting the claim that status entries
are left unchanged. -/
theorem c5_update_favorite_wipes_status :
    (updateFavoriteOp ⟨[], [⟨['f','1'], ['u','1'], ['p','1'], [], []⟩]⟩
        (some [(kFavStatus ['u','1'] ['p','1'],
            ⟨encodeJ (favStatusToJ ⟨true, some ['f','1']⟩), 600⟩),
          (kUserFavorites ['u','1'] 1 10, ⟨encodeJ .jnull, 600⟩)])
        ['u','1'] ['f','1'] ['n'] []).outcome = .updated ∧
    cacheEntry (some [(kFavStatus ['u','1'] ['p','1'],
          ⟨encodeJ (favStatusToJ ⟨true, some ['f','1']⟩), 600⟩),
        (kUserFavorites ['u','1'] 1 10, ⟨encodeJ .jnull, 600⟩)])
      (kFavStatus ['u','1'] ['p','1'])
      = some ⟨encodeJ (favStatusToJ ⟨true, some ['f','1']⟩), 600⟩ ∧
    cacheEntry (updateFavoriteOp ⟨[], [⟨['f','1'], ['u','1'], ['p','1'], [], []⟩]⟩
        (some [(kFavStatus ['u','1'] ['p','1'],
            ⟨encodeJ (favStatusToJ ⟨true, some ['f','1']⟩), 600⟩),
          (kUserFavorites ['u','1'] 1 10, ⟨encodeJ .jnull, 600⟩)])
        ['u','1'] ['f','1'] ['n'] []).cache (kFavStatus ['u','1'] ['p','1']) = none ∧
    cacheEntry (updateFavoriteOp ⟨[], [⟨['f','1'], ['u','1'], ['p','1'], [], []⟩]⟩
        (some [(kFavStatus ['u','1'] ['p','1'],
            ⟨encodeJ (favStatusToJ ⟨true, some ['f','1']⟩), 600⟩),
          (kUserFavorites ['u','1'] 1 10, ⟨encodeJ .jnull, 600⟩)])
        ['u','1'] ['f','1'] ['n'] []).cache (kUserFavorites ['u','1'] 1 10) = none :=
  ⟨rfl, rfl, rfl, rfl⟩
